import Mathlib

/-!
Verification development for the backtracking line search of MINGROC++
(src/include/LBFGS/LineSearchBacktracking.cpp, function
MINGROCpp::LineSearchBacktracking::LineSearch).

Modelling conventions:
- The templated floating-point Scalar is modelled by the rationals; the energy
  slot (which the source explicitly tests for NaN/Inf) is modelled by a small
  IEEE-like type Flt with nan, -inf, +inf and finite values, with IEEE
  comparison semantics (any comparison with nan is false).
- External collaborators listed in the spec (convertRealToComplex,
  calculateEnergy, the self-intersection predicate of igl, and the pointwise
  unit-circle projection used by clipToUnitCircle) are parameters bundled in
  MINGROCExt; their headers are not part of the sources.
- Complex entries are pairs of rationals; a magnitude comparison abs z < 1 of
  the source is rendered by the equivalent squared comparison
  re^2 + im^2 < 1, which keeps every definition decidable.
- The loop is translated with an explicit iteration counter (iter, mirroring
  the source for loop variable) and a structural fuel argument; the entry
  point supplies fuel maxLineSearch + 1, the exact number of iterations the
  source for loop can execute.  Each loop iteration appends the candidate it
  built to an instrumentation trace (a list of Trial records) so that
  per-trial properties can be stated; the trace is write-only and never
  influences control flow.
-/

namespace MINGROCpp

/-- Complex scalar: real and imaginary part, both rational. -/
abbrev Cplx : Type := ℚ × ℚ

/-- Squared magnitude of a complex entry.  The source compares magnitudes
(mu.array().abs() against 1.0); for exact arithmetic abs z < 1 iff
re^2 + im^2 < 1 and abs z <= 1 iff re^2 + im^2 <= 1, so the squared form is
used in the executable definitions. -/
def cabs2 (z : Cplx) : ℚ := z.1 ^ 2 + z.2 ^ 2

/-- IEEE-like value for the energy slot: the source tests fx != fx (NaN) and
std::isinf(fx), so the model distinguishes nan, the two infinities and finite
values. -/
inductive Flt : Type
  | nan : Flt
  | negInf : Flt
  | posInf : Flt
  | fin (q : ℚ) : Flt
deriving DecidableEq

/-- True exactly on finite values. -/
def Flt.isFin : Flt → Bool
  | .fin _ => true
  | _ => false

/-- IEEE strict less-than: any comparison involving nan is false. -/
def fltLt : Flt → Flt → Bool
  | .nan, _ => false
  | _, .nan => false
  | .negInf, .negInf => false
  | .negInf, _ => true
  | _, .negInf => false
  | .posInf, _ => false
  | .fin _, .posInf => true
  | .fin a, .fin b => decide (a < b)

/-- IEEE greater-than, defined from fltLt. -/
def fltGt (a b : Flt) : Bool := fltLt b a

/-- Add a (finite) rational to an IEEE-like value, as IEEE addition would. -/
def fltAddQ : Flt → ℚ → Flt
  | .nan, _ => .nan
  | .negInf, _ => .negInf
  | .posInf, _ => .posInf
  | .fin a, q => .fin (a + q)

/-- Modelled from the spec: the MINGROCParam fields read by the line search
(the parameter header is not among the sources).  Spec 3: Parameters are
`{ftol, maxLineSearch, minStep/maxStep, lineSearchTermination, checkSelfIntersections}`. -/
structure MINGROCParam : Type where
  ftol : ℚ
  maxLineSearch : ℕ
  minStep : ℚ
  maxStep : ℚ
  lineSearchTermination : ℤ
  checkSelfIntersections : Bool

/-- Modelled from the spec: the termination-mode constant NONE (the header
defining the constants is not among the sources; the three constants are
modelled as distinct integers). -/
def LINE_SEARCH_TERMINATION_NONE : ℤ := 0

/-- Modelled from the spec: the termination-mode constant DECREASE. -/
def LINE_SEARCH_TERMINATION_DECREASE : ℤ := 1

/-- Modelled from the spec: the termination-mode constant ARMIJO. -/
def LINE_SEARCH_TERMINATION_ARMIJO : ℤ := 2

/-- External collaborators of the line search, bundled as function parameters
(spec 6, consumed capabilities).  calculateEnergy has the interpolant, the two
energy-term flags and the auxiliary output buffers of the source baked into
the function value, since none of them affect the line-search control flow.
projUnit is the pointwise projection applied by clipToUnitCircle to one
boundary entry (modelled from the spec: clipToUnitCircle is an in-place
projection of boundary entries onto the unit circle; the pointwise map is
irrational, hence a parameter). -/
structure MINGROCExt : Type where
  convertRealToComplex : List ℚ → List Cplx
  calculateEnergy : List Cplx → List Cplx → Flt
  projUnit : Cplx → Cplx
  selfIntersections : List (ℚ × ℚ × ℚ) → List (ℕ × ℕ × ℕ) → Bool

/-- Map a function with the element index over a list (used to model indexed
in-place updates of Eigen vectors). -/
def mapWithIdx (f : ℕ → α → β) : ℕ → List α → List β
  | _, [] => []
  | i, a :: as => f i a :: mapWithIdx f (i + 1) as

/-- Model of MINGROCpp::clipToUnitCircle(m_bdyIDx, w): entries at boundary
indices are replaced by their unit-circle projection, all other entries are
untouched (in-place, length preserving). -/
def clipToUnitCircle (E : MINGROCExt) (bdyIDx : List ℕ) (w : List Cplx) : List Cplx :=
  mapWithIdx (fun i z => if i ∈ bdyIDx then E.projUnit z else z) 0 w

/-- Pin fixed points: for i in fixIDx, w(fixIDx(i)) = wp(fixIDx(i))
(source lines 104-105). -/
def pinFixed (fixIDx : List ℕ) (wp w : List Cplx) : List Cplx :=
  mapWithIdx (fun i z => if i ∈ fixIDx then wp.getD i z else z) 0 w

/-- Dot product grad.dot(drt) (source line 55). -/
def dot (a b : List ℚ) : ℚ := (List.zipWith (fun x y => x * y) a b).sum

/-- Decreasing factor dec = 0.5 (source line 44). -/
def dec : ℚ := 1 / 2

/-- Increasing factor inc = 2.1 (source line 45).  Declared by the source and
never applied anywhere in the loop. -/
def inc : ℚ := 21 / 10

/-- Fixed data of one line-search call: the external collaborators, the mesh
faces and boundary indices, the fixed-point indices, the parameters, the two
direction vectors, the saved base state xp / wp, the saved initial energy and
the precomputed sufficient-decrease slope test_decr = ftol * dg_init. -/
structure LSCtx : Type where
  E : MINGROCExt
  F : List (ℕ × ℕ × ℕ)
  bdyIDx : List ℕ
  fixIDx : List ℕ
  P : MINGROCParam
  drt : List ℚ
  dw : List Cplx
  xp : List ℚ
  wp : List Cplx
  fx_init : Flt
  test_decr : ℚ

/-- Candidate real field x = xp + step * drt (source line 92). -/
def buildX (c : LSCtx) (step : ℚ) : List ℚ :=
  List.zipWith (fun a d => a + step * d) c.xp c.drt

/-- Candidate mapping before constraints: w = wp + step * dw (source line 98). -/
def buildWraw (c : LSCtx) (step : ℚ) : List Cplx :=
  List.zipWith (fun a d => (a.1 + step * d.1, a.2 + step * d.2)) c.wp c.dw

/-- Candidate mapping after boundary clipping and pinning (source lines
98-105): the raw update, then clipToUnitCircle on the boundary indices, then
the fixed points reset to their base values. -/
def buildW (c : LSCtx) (step : ℚ) : List Cplx :=
  pinFixed c.fixIDx c.wp (clipToUnitCircle c.E c.bdyIDx (buildWraw c step))

/-- 3-D lift of the candidate mapping, w3D << w.real(), w.imag(), 0
(source lines 115-116). -/
def lift3D (w : List Cplx) : List (ℚ × ℚ × ℚ) :=
  w.map (fun z => (z.1, z.2, (0 : ℚ)))

/-- Feasibility of a candidate (source lines 108-126): all Beltrami
magnitudes strictly below 1, all mapping magnitudes at most 1, and, when
checkSelfIntersections is set, no self-intersections of the lifted
triangulation. -/
def validStepCheck (P : MINGROCParam) (E : MINGROCExt) (F : List (ℕ × ℕ × ℕ))
    (mu w : List Cplx) : Bool :=
  ((mu.all fun z => decide (cabs2 z < 1)) && (w.all fun z => decide (cabs2 z ≤ 1)))
    && (if P.checkSelfIntersections then !(E.selfIntersections (lift3D w) F) else true)

/-- Outcome of the termination-condition chain for one evaluated candidate. -/
inductive LSDecision : Type
  | shrink : LSDecision
  | accept : LSDecision
  | configError : LSDecision
deriving DecidableEq

/-- The termination-condition chain of the source (lines 160-196), in source
order: reject NaN/Inf; accept mode NONE; reject an energy increase; accept
mode DECREASE; reject a violation of the Armijo bound
fx > fx_init + step * test_decr; accept mode ARMIJO; otherwise the
configuration is invalid. -/
def lsTermDecide (mode : ℤ) (fx_init : Flt) (test_decr step : ℚ) (fx : Flt) :
    LSDecision :=
  if !fx.isFin then .shrink
  else if mode = LINE_SEARCH_TERMINATION_NONE then .accept
  else if fltGt fx fx_init then .shrink
  else if mode = LINE_SEARCH_TERMINATION_DECREASE then .accept
  else if fltGt fx (fltAddQ fx_init (step * test_decr)) then .shrink
  else if mode = LINE_SEARCH_TERMINATION_ARMIJO then .accept
  else .configError

/-- Instrumentation record of one loop iteration: the step used to build the
candidate, the candidate fields, the feasibility verdict, and the energy when
it was evaluated (none when the candidate was rejected as infeasible before
any energy evaluation). -/
structure Trial : Type where
  step : ℚ
  x : List ℚ
  w : List Cplx
  mu : List Cplx
  valid : Bool
  fx : Option Flt
deriving DecidableEq

/-- Error kinds thrown by the source: the std::logic_error for a non-descent
direction (line 59), the iteration-budget std::runtime_error (lines 133 and
199), the two step-bound std::runtime_error (lines 138, 144, 204, 209) and
the std::invalid_argument for an unrecognized termination mode (line 192). -/
inductive ErrKind : Type
  | notDescent : ErrKind
  | budget : ErrKind
  | tooSmall : ErrKind
  | tooLarge : ErrKind
  | invalidTermination : ErrKind
deriving DecidableEq

/-- Result of one call.  Both constructors carry the values held by the
caller-visible in/out references fx, x, w, step at the moment the call ends
(C++ exceptions leave the mutated references as they are), plus the
instrumentation trace of all candidates built. -/
inductive LSResult : Type
  | ok (fx : Flt) (x : List ℚ) (w : List Cplx) (step : ℚ) (trials : List Trial) :
      LSResult
  | err (kind : ErrKind) (fx : Flt) (x : List ℚ) (w : List Cplx) (step : ℚ)
      (trials : List Trial) : LSResult
deriving DecidableEq

/-- Trace of candidates built during the call. -/
def trialsOf : LSResult → List Trial
  | .ok _ _ _ _ ts => ts
  | .err _ _ _ _ _ ts => ts

/-- The loop of the source (lines 86-215).  Each iteration: build the
candidate (x, mu, w with clipping and pinning), test feasibility; an
infeasible candidate goes to the budget check (line 132), the lower and upper
step-bound checks (lines 137, 143) and, if all pass, step *= dec and the next
iteration; a feasible candidate gets its energy evaluated (line 155) and runs
the termination chain: accept breaks out of the loop, an unrecognized mode
throws (line 192), and a rejection goes to the same budget check (line 198)
and step-bound checks (lines 203, 208) followed by step *= dec.  The width
variable of the source is always dec = 0.5, so the shrink is written
step * dec directly.  The fuel argument is maxLineSearch + 1 - iter at every
call; the fuel-zero branch is unreachable from the entry point because the
source loop exits only through break or throw. -/
def lsLoop (c : LSCtx) : ℕ → ℕ → Flt → List ℚ → List Cplx → ℚ → List Trial →
    LSResult
  | _iter, 0, fx, x, w, step, trials => .err .budget fx x w step trials
  | iter, _fuel + 1, fx, _x, _w, step, trials =>
    let x := buildX c step
    let mu := c.E.convertRealToComplex x
    let w := buildW c step
    let valid := validStepCheck c.P c.E c.F mu w
    if !valid then
      let trials := trials ++ [⟨step, x, w, mu, false, none⟩]
      if c.P.maxLineSearch ≤ iter then .err .budget fx x w step trials
      else if step < c.P.minStep then .err .tooSmall fx x w step trials
      else if c.P.maxStep < step then .err .tooLarge fx x w step trials
      else lsLoop c (iter + 1) _fuel fx x w (step * dec) trials
    else
      let fx := c.E.calculateEnergy mu w
      let trials := trials ++ [⟨step, x, w, mu, true, some fx⟩]
      match lsTermDecide c.P.lineSearchTermination c.fx_init c.test_decr step fx with
      | .accept => .ok fx x w step trials
      | .configError => .err .invalidTermination fx x w step trials
      | .shrink =>
        if c.P.maxLineSearch ≤ iter then .err .budget fx x w step trials
        else if step < c.P.minStep then .err .tooSmall fx x w step trials
        else if c.P.maxStep < step then .err .tooLarge fx x w step trials
        else lsLoop c (iter + 1) _fuel fx x w (step * dec) trials

/-- Build the fixed per-call context from the entry arguments (source lines
52-61: xp = x, wp = w, fx_init = fx, dg_init = grad.dot(drt),
test_decr = ftol * dg_init). -/
def mkCtx (E : MINGROCExt) (F : List (ℕ × ℕ × ℕ)) (bdyIDx fixIDx : List ℕ)
    (P : MINGROCParam) (drt : List ℚ) (dw : List Cplx) (grad : List ℚ)
    (fx : Flt) (x : List ℚ) (w : List Cplx) : LSCtx :=
  ⟨E, F, bdyIDx, fixIDx, P, drt, dw, x, w, fx, P.ftol * dot grad drt⟩

/-- Entry point, translating LineSearchBacktracking::LineSearch.  Source
lines 48-49 read `if (step < 0) std::invalid_argument("...");`: the exception
object is constructed and immediately destroyed, never thrown, so a negative
step is not rejected and nothing of it appears here.  The only precondition
that is enforced is the descent condition: dg_init > 0 throws the
std::logic_error of line 59 before any candidate is built.  The loop then
starts at iter = 0 with fuel maxLineSearch + 1. -/
def LineSearch (E : MINGROCExt) (F : List (ℕ × ℕ × ℕ)) (bdyIDx fixIDx : List ℕ)
    (P : MINGROCParam) (drt : List ℚ) (dw : List Cplx) (grad : List ℚ)
    (fx : Flt) (x : List ℚ) (w : List Cplx) (step : ℚ) : LSResult :=
  let dg_init := dot grad drt
  if 0 < dg_init then .err .notDescent fx x w step []
  else
    lsLoop (mkCtx E F bdyIDx fixIDx P drt dw grad fx x w)
      0 (P.maxLineSearch + 1) fx x w step []

/-- Concrete external collaborators for closed evaluations: the conversion
embeds the real field as real parts, the energy is the first entry of the
distortion field, the projection is the identity and nothing ever
self-intersects. -/
def extA : MINGROCExt :=
  ⟨fun x => x.map (fun a => (a, (0 : ℚ))),
   fun mu _w => .fin (mu.headD ((0 : ℚ), (0 : ℚ))).1,
   fun z => z,
   fun _ _ => false⟩

/-- Concrete parameters: mode NONE, budget 5, wide step bounds. -/
def pA : MINGROCParam := ⟨1/2, 5, 1/1000, 100, LINE_SEARCH_TERMINATION_NONE, false⟩

/-- Concrete parameters: mode ARMIJO, budget 5, wide step bounds. -/
def pArm : MINGROCParam := ⟨1/2, 5, 1/1000, 100, LINE_SEARCH_TERMINATION_ARMIJO, false⟩

/-- Concrete parameters: mode NONE with maxStep = 1, so that a caller-supplied
step of 5 lies above the upper bound. -/
def pBound : MINGROCParam := ⟨1/2, 5, 1/1000, 1, LINE_SEARCH_TERMINATION_NONE, false⟩

/-- Concrete parameters: mode NONE with a zero iteration budget. -/
def pZero : MINGROCParam := ⟨1/2, 0, 1/1000, 100, LINE_SEARCH_TERMINATION_NONE, false⟩

/-- Concrete parameters: mode NONE with minStep = 2, so that a rejected trial
with step 1 trips the lower bound check. -/
def pMin : MINGROCParam := ⟨1/2, 5, 2, 100, LINE_SEARCH_TERMINATION_NONE, false⟩

/-- First-match evaluation of a guarded decision table: the decision of the
first row whose guard is true, or the default when no guard matches. -/
def firstMatch : List (Bool × LSDecision) → LSDecision → LSDecision
  | [], dflt => dflt
  | (g, d) :: rest, dflt => if g then d else firstMatch rest dflt

/-- The termination decision table exactly as the spec words it (spec 4.3):
NaN or infinite energy rejects; mode NONE accepts; an energy above the
initial energy rejects; mode DECREASE accepts; an energy above the Armijo
bound fx_init + step * ftol * dg_init rejects; mode ARMIJO accepts.  Written
from the spec, to be compared with lsTermDecide, which is written from the
source. -/
def specTermTable (mode : ℤ) (fx_init : Flt) (ftol dg_init step : ℚ) (fx : Flt) :
    List (Bool × LSDecision) :=
  [ (!fx.isFin, .shrink),
    (decide (mode = LINE_SEARCH_TERMINATION_NONE), .accept),
    (fltGt fx fx_init, .shrink),
    (decide (mode = LINE_SEARCH_TERMINATION_DECREASE), .accept),
    (fltGt fx (fltAddQ fx_init (step * ftol * dg_init)), .shrink),
    (decide (mode = LINE_SEARCH_TERMINATION_ARMIJO), .accept) ]

/-- Shape of one recorded trial: its fields are exactly the candidate fields
the loop body builds, checks and (when feasible) evaluates for its step. -/
def GoodTrial (c : LSCtx) (t : Trial) : Prop :=
  t.x = buildX c t.step ∧
  t.mu = c.E.convertRealToComplex (buildX c t.step) ∧
  t.w = buildW c t.step ∧
  t.valid = validStepCheck c.P c.E c.F t.mu t.w ∧
  (t.valid = false → t.fx = none) ∧
  (t.valid = true → t.fx = some (c.E.calculateEnergy t.mu t.w))

/-- Relation between a trial and the trial built right after it: the later
step is the earlier one times dec, and the earlier step passed the bound
checks (minStep ≤ step ≤ maxStep) before the shrink. -/
def NextTrialRel (c : LSCtx) (t1 t2 : Trial) : Prop :=
  t2.step = t1.step * dec ∧ c.P.minStep ≤ t1.step ∧ t1.step ≤ c.P.maxStep

/-- The loop only appends to the trace; every appended trial is well built,
and the first appended trial uses the step the loop was entered with. -/
theorem lsLoop_trials_shape (c : LSCtx) :
    ∀ fuel iter fx x w step trials,
      ∃ ts, trialsOf (lsLoop c iter fuel fx x w step trials) = trials ++ ts ∧
        (∀ t ∈ ts, GoodTrial c t) ∧
        (∀ t, ts.head? = some t → t.step = step) := by
  intro fuel
  induction fuel with
  | zero =>
    intro iter fx x w step trials
    exact ⟨[], by simp [lsLoop, trialsOf], by simp, by simp⟩
  | succ n ih =>
    intro iter fx x w step trials
    simp only [lsLoop]
    by_cases hv : validStepCheck c.P c.E c.F
        (c.E.convertRealToComplex (buildX c step)) (buildW c step) = true
    · simp only [hv, Bool.not_true, Bool.false_eq_true, if_false]
      set t : Trial := ⟨step, buildX c step,  buildW c step,
        c.E.convertRealToComplex (buildX c step), true,
        some (c.E.calculateEnergy (c.E.convertRealToComplex (buildX c step))
          (buildW c step))⟩ with ht
      have hgood : GoodTrial c t := by
        refine ⟨rfl, rfl, rfl, ?_, ?_, ?_⟩
        · simp [ht, hv]
        · simp [ht]
        · simp [ht]
      cases hdec : lsTermDecide c.P.lineSearchTermination c.fx_init c.test_decr step
          (c.E.calculateEnergy (c.E.convertRealToComplex (buildX c step)) (buildW c step)) with
      | accept =>
        exact ⟨[t], by simp [trialsOf, ht], by simpa using hgood, by simp [ht]⟩
      | configError =>
        exact ⟨[t], by simp [trialsOf, ht], by simpa using hgood, by simp [ht]⟩
      | shrink =>
        by_cases hb : c.P.maxLineSearch ≤ iter
        · simp only [hb, if_true]
          exact ⟨[t], by simp [trialsOf, ht], by simpa using hgood, by simp [ht]⟩
        · simp only [hb, if_false]
          by_cases hmin : step < c.P.minStep
          · simp only [hmin, if_true]
            exact ⟨[t], by simp [trialsOf, ht], by simpa using hgood, by simp [ht]⟩
          · simp only [hmin, if_false]
            by_cases hmax : c.P.maxStep < step
            · simp only [hmax, if_true]
              exact ⟨[t], by simp [trialsOf, ht], by simpa using hgood, by simp [ht]⟩
            · simp only [hmax, if_false]
              obtain ⟨ts', h1, h2, _h3⟩ :=
                ih (iter + 1)
                  (c.E.calculateEnergy (c.E.convertRealToComplex (buildX c step))
                    (buildW c step))
                  (buildX c step) (buildW c step) (step * dec) (trials ++ [t])
              refine ⟨t :: ts', ?_, ?_, ?_⟩
              · simpa using h1
              · intro u hu
                rcases List.mem_cons.mp hu with hu | hu
                · exact hu ▸ hgood
                · exact h2 u hu
              · intro u hu
                simp only [List.head?_cons, Option.some.injEq] at hu
                simp [← hu, ht]
    · have hv' : validStepCheck c.P c.E c.F
          (c.E.convertRealToComplex (buildX c step)) (buildW c step) = false :=
        Bool.not_eq_true _ ▸ hv
      simp only [hv', Bool.not_false, if_true]
      set t : Trial := ⟨step, buildX c step, buildW c step,
        c.E.convertRealToComplex (buildX c step), false, none⟩ with ht
      have hgood : GoodTrial c t := by
        refine ⟨rfl, rfl, rfl, ?_, ?_, ?_⟩
        · simp [ht, hv']
        · simp [ht]
        · simp [ht]
      by_cases hb : c.P.maxLineSearch ≤ iter
      · simp only [hb, if_true]
        exact ⟨[t], by simp [trialsOf, ht], by simpa using hgood, by simp [ht]⟩
      · simp only [hb, if_false]
        by_cases hmin : step < c.P.minStep
        · simp only [hmin, if_true]
          exact ⟨[t], by simp [trialsOf, ht], by simpa using hgood, by simp [ht]⟩
        · simp only [hmin, if_false]
          by_cases hmax : c.P.maxStep < step
          · simp only [hmax, if_true]
            exact ⟨[t], by simp [trialsOf, ht], by simpa using hgood, by simp [ht]⟩
          · simp only [hmax, if_false]
            obtain ⟨ts', h1, h2, _h3⟩ :=
              ih (iter + 1) fx (buildX c step) (buildW c step) (step * dec)
                (trials ++ [t])
            refine ⟨t :: ts', ?_, ?_, ?_⟩
            · simpa using h1
            · intro u hu
              rcases List.mem_cons.mp hu with hu | hu
              · exact hu ▸ hgood
              · exact h2 u hu
            · intro u hu
              simp only [List.head?_cons, Option.some.injEq] at hu
              simp [← hu, ht]

/-- Terminal-state characterization of the loop, under the entry invariants
(iter + fuel = maxLineSearch + 1, iter within budget, one recorded trial per
past iteration): a success carries exactly the accepted trial's state and its
acceptance by the termination chain; a loop error carries exactly the state
of the last recorded trial, is never the pre-loop descent error, reports a
step bound only when the final step actually violates it, and reports budget
exhaustion only after exactly maxLineSearch + 1 trials. -/
theorem lsLoop_last_state (c : LSCtx) :
    ∀ fuel iter fx x w step trials,
      iter + fuel = c.P.maxLineSearch + 1 → iter ≤ c.P.maxLineSearch →
      trials.length = iter →
      (∀ f' x' w' s' ts, lsLoop c iter fuel fx x w step trials = .ok f' x' w' s' ts →
         ∃ t, ts.getLast? = some t ∧ t.step = s' ∧ t.x = x' ∧ t.w = w' ∧
           t.valid = true ∧ t.fx = some f' ∧
           lsTermDecide c.P.lineSearchTermination c.fx_init c.test_decr s' f' =
             .accept) ∧
      (∀ k f' x' w' s' ts, lsLoop c iter fuel fx x w step trials = .err k f' x' w' s' ts →
         k ≠ .notDescent ∧
         (k = .tooSmall → s' < c.P.minStep) ∧
         (k = .tooLarge → c.P.maxStep < s') ∧
         (k = .budget → ts.length = c.P.maxLineSearch + 1) ∧
         ∃ t, ts.getLast? = some t ∧ t.step = s' ∧ t.x = x' ∧ t.w = w' ∧
           (∀ e, t.fx = some e → f' = e)) := by
  intro fuel
  induction fuel with
  | zero =>
    intro iter fx x w step trials hif hle _hlen
    omega
  | succ n ih =>
    intro iter fx x w step trials hif hle hlen
    simp only [lsLoop]
    by_cases hv : validStepCheck c.P c.E c.F
        (c.E.convertRealToComplex (buildX c step)) (buildW c step) = true
    · simp only [hv, Bool.not_true, Bool.false_eq_true, if_false]
      cases hdec : lsTermDecide c.P.lineSearchTermination c.fx_init c.test_decr step
          (c.E.calculateEnergy (c.E.convertRealToComplex (buildX c step)) (buildW c step)) with
      | accept =>
        constructor
        · intro f' x' w' s' ts h
          injection h with h1 h2 h3 h4 h5
          subst h1; subst h2; subst h3; subst h4; subst h5
          exact ⟨_, List.getLast?_concat _, rfl, rfl, rfl, rfl, rfl, hdec⟩
        · intro k f' x' w' s' ts h
          cases h
      | configError =>
        constructor
        · intro f' x' w' s' ts h
          cases h
        · intro k f' x' w' s' ts h
          injection h with h0 h1 h2 h3 h4 h5
          subst h0; subst h1; subst h2; subst h3; subst h4; subst h5
          refine ⟨by simp, by simp, by simp, by simp, _, List.getLast?_concat _,
            rfl, rfl, rfl, ?_⟩
          intro e he
          simpa using he
      | shrink =>
        by_cases hb : c.P.maxLineSearch ≤ iter
        · simp only [hb, if_true]
          constructor
          · intro f' x' w' s' ts h
            cases h
          · intro k f' x' w' s' ts h
            injection h with h0 h1 h2 h3 h4 h5
            subst h0; subst h1; subst h2; subst h3; subst h4; subst h5
            refine ⟨by simp, by simp, by simp, ?_, _, List.getLast?_concat _,
              rfl, rfl, rfl, ?_⟩
            · intro _
              simp only [List.length_append, List.length_cons, List.length_nil, hlen]
              omega
            · intro e he
              simpa using he
        · simp only [hb, if_false]
          by_cases hmin : step < c.P.minStep
          · simp only [hmin, if_true]
            constructor
            · intro f' x' w' s' ts h
              cases h
            · intro k f' x' w' s' ts h
              injection h with h0 h1 h2 h3 h4 h5
              subst h0; subst h1; subst h2; subst h3; subst h4; subst h5
              refine ⟨by simp, fun _ => hmin, by simp, by simp, _,
                List.getLast?_concat _, rfl, rfl, rfl, ?_⟩
              intro e he
              simpa using he
          · simp only [hmin, if_false]
            by_cases hmax : c.P.maxStep < step
            · simp only [hmax, if_true]
              constructor
              · intro f' x' w' s' ts h
                cases h
              · intro k f' x' w' s' ts h
                injection h with h0 h1 h2 h3 h4 h5
                subst h0; subst h1; subst h2; subst h3; subst h4; subst h5
                refine ⟨by simp, by simp, fun _ => hmax, by simp, _,
                  List.getLast?_concat _, rfl, rfl, rfl, ?_⟩
                intro e he
                simpa using he
            · simp only [hmax, if_false]
              exact ih (iter + 1)
                (c.E.calculateEnergy (c.E.convertRealToComplex (buildX c step))
                  (buildW c step))
                (buildX c step) (buildW c step) (step * dec) (trials ++ [_])
                (by omega) (by omega) (by simp [hlen])
    · have hv' : validStepCheck c.P c.E c.F
          (c.E.convertRealToComplex (buildX c step)) (buildW c step) = false :=
        Bool.not_eq_true _ ▸ hv
      simp only [hv', Bool.not_false, if_true]
      by_cases hb : c.P.maxLineSearch ≤ iter
      · simp only [hb, if_true]
        constructor
        · intro f' x' w' s' ts h
          cases h
        · intro k f' x' w' s' ts h
          injection h with h0 h1 h2 h3 h4 h5
          subst h0; subst h1; subst h2; subst h3; subst h4; subst h5
          refine ⟨by simp, by simp, by simp, ?_, _, List.getLast?_concat _,
            rfl, rfl, rfl, ?_⟩
          · intro _
            simp only [List.length_append, List.length_cons, List.length_nil, hlen]
            omega
          · intro e he
            cases he
      · simp only [hb, if_false]
        by_cases hmin : step < c.P.minStep
        · simp only [hmin, if_true]
          constructor
          · intro f' x' w' s' ts h
            cases h
          · intro k f' x' w' s' ts h
            injection h with h0 h1 h2 h3 h4 h5
            subst h0; subst h1; subst h2; subst h3; subst h4; subst h5
            refine ⟨by simp, fun _ => hmin, by simp, by simp, _,
              List.getLast?_concat _, rfl, rfl, rfl, ?_⟩
            intro e he
            cases he
        · simp only [hmin, if_false]
          by_cases hmax : c.P.maxStep < step
          · simp only [hmax, if_true]
            constructor
            · intro f' x' w' s' ts h
              cases h
            · intro k f' x' w' s' ts h
              injection h with h0 h1 h2 h3 h4 h5
              subst h0; subst h1; subst h2; subst h3; subst h4; subst h5
              refine ⟨by simp, by simp, fun _ => hmax, by simp, _,
                List.getLast?_concat _, rfl, rfl, rfl, ?_⟩
              intro e he
              cases he
          · simp only [hmax, if_false]
            exact ih (iter + 1) fx
              (buildX c step) (buildW c step) (step * dec) (trials ++ [_])
              (by omega) (by omega) (by simp [hlen])

/-- Each loop iteration records exactly one trial, so the loop adds at most
fuel trials to the trace. -/
theorem lsLoop_length (c : LSCtx) :
    ∀ fuel iter fx x w step trials,
      (trialsOf (lsLoop c iter fuel fx x w step trials)).length ≤
        trials.length + fuel := by
  intro fuel
  induction fuel with
  | zero =>
    intro iter fx x w step trials
    simp [lsLoop, trialsOf]
  | succ n ih =>
    intro iter fx x w step trials
    simp only [lsLoop]
    by_cases hv : validStepCheck c.P c.E c.F
        (c.E.convertRealToComplex (buildX c step)) (buildW c step) = true
    · simp only [hv, Bool.not_true, Bool.false_eq_true, if_false]
      cases hdec : lsTermDecide c.P.lineSearchTermination c.fx_init c.test_decr step
          (c.E.calculateEnergy (c.E.convertRealToComplex (buildX c step)) (buildW c step)) with
      | accept => simp [trialsOf]
      | configError => simp [trialsOf]
      | shrink =>
        by_cases hb : c.P.maxLineSearch ≤ iter
        · simp only [hb, if_true]; simp [trialsOf]
        · simp only [hb, if_false]
          by_cases hmin : step < c.P.minStep
          · simp only [hmin, if_true]; simp [trialsOf]
          · simp only [hmin, if_false]
            by_cases hmax : c.P.maxStep < step
            · simp only [hmax, if_true]; simp [trialsOf]
            · simp only [hmax, if_false]
              have := ih (iter + 1)
                (c.E.calculateEnergy (c.E.convertRealToComplex (buildX c step))
                  (buildW c step))
                (buildX c step) (buildW c step) (step * dec) (trials ++ [⟨step,
                  buildX c step, buildW c step,
                  c.E.convertRealToComplex (buildX c step), true,
                  some (c.E.calculateEnergy (c.E.convertRealToComplex (buildX c step))
                    (buildW c step))⟩])
              simp only [List.length_append, List.length_cons, List.length_nil] at this
              omega
    · have hv' : validStepCheck c.P c.E c.F
          (c.E.convertRealToComplex (buildX c step)) (buildW c step) = false :=
        Bool.not_eq_true _ ▸ hv
      simp only [hv', Bool.not_false, if_true]
      by_cases hb : c.P.maxLineSearch ≤ iter
      · simp only [hb, if_true]; simp [trialsOf]
      · simp only [hb, if_false]
        by_cases hmin : step < c.P.minStep
        · simp only [hmin, if_true]; simp [trialsOf]
        · simp only [hmin, if_false]
          by_cases hmax : c.P.maxStep < step
          · simp only [hmax, if_true]; simp [trialsOf]
          · simp only [hmax, if_false]
            have := ih (iter + 1) fx
              (buildX c step) (buildW c step) (step * dec) (trials ++ [⟨step,
                buildX c step, buildW c step,
                c.E.convertRealToComplex (buildX c step), false, none⟩])
            simp only [List.length_append, List.length_cons, List.length_nil] at this
            omega

/-- Chain invariant of the trace: consecutive recorded trials are related by
NextTrialRel. -/
theorem lsLoop_chain (c : LSCtx) :
    ∀ fuel iter fx x w step trials,
      List.Chain' (NextTrialRel c) trials →
      (∀ t, trials.getLast? = some t →
        step = t.step * dec ∧ c.P.minStep ≤ t.step ∧ t.step ≤ c.P.maxStep) →
      List.Chain' (NextTrialRel c)
        (trialsOf (lsLoop c iter fuel fx x w step trials)) := by
  intro fuel
  induction fuel with
  | zero =>
    intro iter fx x w step trials hch _hlast
    simpa [lsLoop, trialsOf] using hch
  | succ n ih =>
    intro iter fx x w step trials hch hlast
    have happ : ∀ u : Trial, u.step = step →
        List.Chain' (NextTrialRel c) (trials ++ [u]) := by
      intro u hu
      refine (List.chain'_append).mpr ⟨hch, List.chain'_singleton u, ?_⟩
      intro a ha b hb
      simp only [List.head?_cons, Option.mem_def, Option.some.injEq] at hb
      obtain ⟨h1, h2, h3⟩ := hlast a ha
      exact hb ▸ ⟨hu.trans h1, h2, h3⟩
    simp only [lsLoop]
    by_cases hv : validStepCheck c.P c.E c.F
        (c.E.convertRealToComplex (buildX c step)) (buildW c step) = true
    · simp only [hv, Bool.not_true, Bool.false_eq_true, if_false]
      cases hdec : lsTermDecide c.P.lineSearchTermination c.fx_init c.test_decr step
          (c.E.calculateEnergy (c.E.convertRealToComplex (buildX c step)) (buildW c step)) with
      | accept => exact happ _ rfl
      | configError => exact happ _ rfl
      | shrink =>
        by_cases hb : c.P.maxLineSearch ≤ iter
        · simp only [hb, if_true]
          exact happ _ rfl
        · simp only [hb, if_false]
          by_cases hmin : step < c.P.minStep
          · simp only [hmin, if_true]
            exact happ _ rfl
          · simp only [hmin, if_false]
            by_cases hmax : c.P.maxStep < step
            · simp only [hmax, if_true]
              exact happ _ rfl
            · simp only [hmax, if_false]
              refine ih (iter + 1) _ _ _ (step * dec) _ (happ _ rfl) ?_
              intro t ht
              rw [List.getLast?_concat] at ht
              injection ht with ht
              subst ht
              exact ⟨rfl, le_of_not_lt hmin, le_of_not_lt hmax⟩
    · have hv' : validStepCheck c.P c.E c.F
          (c.E.convertRealToComplex (buildX c step)) (buildW c step) = false :=
        Bool.not_eq_true _ ▸ hv
      simp only [hv', Bool.not_false, if_true]
      by_cases hb : c.P.maxLineSearch ≤ iter
      · simp only [hb, if_true]
        exact happ _ rfl
      · simp only [hb, if_false]
        by_cases hmin : step < c.P.minStep
        · simp only [hmin, if_true]
          exact happ _ rfl
        · simp only [hmin, if_false]
          by_cases hmax : c.P.maxStep < step
          · simp only [hmax, if_true]
            exact happ _ rfl
          · simp only [hmax, if_false]
            refine ih (iter + 1) _ _ _ (step * dec) _ (happ _ rfl) ?_
            intro t ht
            rw [List.getLast?_concat] at ht
            injection ht with ht
            subst ht
            exact ⟨rfl, le_of_not_lt hmin, le_of_not_lt hmax⟩

/-- C4: after a feasible trial's energy is computed, the termination decision
of the source (lsTermDecide, translated from lines 160-196, with
test_decr = ftol * dg_init as set on line 61) equals the first-match-wins
evaluation of the spec's seven-row decision table: (1) NaN or infinite energy
rejects and shrinks; (2) mode NONE accepts; (3) an energy above the initial
energy rejects and shrinks; (4) mode DECREASE accepts; (5) an energy above
fx_init + step * ftol * dg_init rejects and shrinks; (6) mode ARMIJO accepts;
(7) any other mode is a fatal configuration error (the table's default). -/
theorem lsTermDecide_eq_specTable (mode : ℤ) (fx_init : Flt) (ftol dg_init step : ℚ)
    (fx : Flt) :
    lsTermDecide mode fx_init (ftol * dg_init) step fx =
      firstMatch (specTermTable mode fx_init ftol dg_init step fx) .configError := by
  simp only [lsTermDecide, specTermTable, firstMatch, decide_eq_true_eq, mul_assoc]

/-- C1 (code bug): the source builds `std::invalid_argument("'step' must be
positive")` on line 49 without a throw, so the exception is constructed and
discarded and a negative initial step is not rejected.  Evaluating the model
at step = -1: the call builds and evaluates a candidate with the negative
step and returns it as a success, instead of raising the documented
precondition-violation error before any candidate is built. -/
theorem negative_step_builds_candidate :
    LineSearch extA [] [] [] pA [1/2] [((0:ℚ), (0:ℚ))] [-1] (.fin 0) [0]
        [((0:ℚ), (0:ℚ))] (-1) =
      .ok (.fin (-1/2)) [-1/2] [((0:ℚ), (0:ℚ))] (-1)
        [⟨-1, [-1/2], [((0:ℚ), (0:ℚ))], [((-1/2 : ℚ), (0:ℚ))], true,
          some (.fin (-1/2))⟩] := by
  norm_num [LineSearch, lsLoop, dot, mkCtx, buildX, buildW, buildWraw, pinFixed,
    clipToUnitCircle, mapWithIdx, validStepCheck, cabs2, lift3D, extA, pA, pArm, pBound,
    pZero, lsTermDecide, trialsOf, LINE_SEARCH_TERMINATION_NONE,
    LINE_SEARCH_TERMINATION_DECREASE, LINE_SEARCH_TERMINATION_ARMIJO, dec, Flt.isFin,
    fltGt, fltLt, fltAddQ]

/-- C2 counterexample: a zero initial directional derivative is not rejected.
With grad = [0] and drt = [1/2] the directional derivative is 0 (non-negative),
yet the call builds a candidate and returns it as a success instead of raising
the precondition-violation error. -/
theorem zero_slope_not_rejected :
    dot [0] [1/2] = 0 ∧
    LineSearch extA [] [] [] pA [1/2] [((0:ℚ), (0:ℚ))] [0] (.fin 0) [0]
        [((0:ℚ), (0:ℚ))] 1 =
      .ok (.fin (1/2)) [1/2] [((0:ℚ), (0:ℚ))] 1
        [⟨1, [1/2], [((0:ℚ), (0:ℚ))], [((1/2 : ℚ), (0:ℚ))], true,
          some (.fin (1/2))⟩] := by
  refine ⟨by norm_num [dot], ?_⟩
  norm_num [LineSearch, lsLoop, dot, mkCtx, buildX, buildW, buildWraw, pinFixed,
    clipToUnitCircle, mapWithIdx, validStepCheck, cabs2, lift3D, extA, pA, pArm, pBound,
    pZero, lsTermDecide, trialsOf, LINE_SEARCH_TERMINATION_NONE,
    LINE_SEARCH_TERMINATION_DECREASE, LINE_SEARCH_TERMINATION_ARMIJO, dec, Flt.isFin,
    fltGt, fltLt, fltAddQ]

/-- C2 amended: the precondition-violation error for a non-descent direction
is raised exactly when the initial directional derivative is strictly
positive (a zero derivative is accepted and the search proceeds), and when it
is raised no candidate has been built: the trace is empty and the in/out
state is returned unchanged. -/
theorem descent_error_iff_positive_slope (E : MINGROCExt) (F : List (ℕ × ℕ × ℕ))
    (bdyIDx fixIDx : List ℕ) (P : MINGROCParam) (drt : List ℚ) (dw : List Cplx)
    (grad : List ℚ) (fx : Flt) (x : List ℚ) (w : List Cplx) (step : ℚ) :
    (0 < dot grad drt →
      LineSearch E F bdyIDx fixIDx P drt dw grad fx x w step =
        .err .notDescent fx x w step []) ∧
    (∀ f' x' w' s' ts,
      LineSearch E F bdyIDx fixIDx P drt dw grad fx x w step =
        .err .notDescent f' x' w' s' ts →
      0 < dot grad drt) := by
  constructor
  · intro h
    simp [LineSearch, h]
  · intro f' x' w' s' ts h
    by_contra hneg
    rw [LineSearch] at h
    simp only [if_neg hneg] at h
    have hlast := (lsLoop_last_state (mkCtx E F bdyIDx fixIDx P drt dw grad fx x w)
      (P.maxLineSearch + 1) 0 fx x w step [] (by simp [mkCtx]) (by simp [mkCtx]) rfl).2
      .notDescent f' x' w' s' ts h
    exact hlast.1 rfl

/-- Closed instance of the amended C2 theorem: with grad = [1] and drt = [1]
the directional derivative is 1 > 0 and the call fails with the descent
precondition error before building any candidate. -/
theorem descent_error_iff_positive_slope_witness :
    LineSearch extA [] [] [] pA [1] [((0:ℚ), (0:ℚ))] [1] (.fin 0) [0]
        [((0:ℚ), (0:ℚ))] 1 =
      .err .notDescent (.fin 0) [0] [((0:ℚ), (0:ℚ))] 1 [] :=
  (descent_error_iff_positive_slope extA [] [] [] pA [1] [((0:ℚ), (0:ℚ))] [1]
    (.fin 0) [0] [((0:ℚ), (0:ℚ))] 1).1 (by norm_num [dot])

/-- C3 counterexample: a trial may be built and evaluated with a step outside
[minStep, maxStep].  With maxStep = 1 and a caller-supplied step of 5, the
first candidate is built with step 5, evaluated, and accepted: no fatal
bound error is raised. -/
theorem first_step_above_maxStep_evaluated :
    pBound.maxStep < 5 ∧
    LineSearch extA [] [] [] pBound [-1/100] [((0:ℚ), (0:ℚ))] [1] (.fin 0) [0]
        [((0:ℚ), (0:ℚ))] 5 =
      .ok (.fin (-1/20)) [-1/20] [((0:ℚ), (0:ℚ))] 5
        [⟨5, [-1/20], [((0:ℚ), (0:ℚ))], [((-1/20 : ℚ), (0:ℚ))], true,
          some (.fin (-1/20))⟩] := by
  refine ⟨by norm_num [pBound], ?_⟩
  norm_num [LineSearch, lsLoop, dot, mkCtx, buildX, buildW, buildWraw, pinFixed,
    clipToUnitCircle, mapWithIdx, validStepCheck, cabs2, lift3D, extA, pA, pArm, pBound,
    pZero, lsTermDecide, trialsOf, LINE_SEARCH_TERMINATION_NONE,
    LINE_SEARCH_TERMINATION_DECREASE, LINE_SEARCH_TERMINATION_ARMIJO, dec, Flt.isFin,
    fltGt, fltLt, fltAddQ]

/-- An element named by getLast? is a member of the list. -/
theorem mem_of_getLast?_eq {α : Type} {l : List α} {a : α}
    (h : l.getLast? = some a) : a ∈ l := by
  obtain ⟨hne, ha⟩ := List.mem_getLast?_eq_getLast (Option.mem_def.mpr h)
  rw [ha]
  exact List.getLast_mem hne

/-- Length of mapWithIdx. -/
theorem mapWithIdx_length {α β : Type} (f : ℕ → α → β) :
    ∀ (n : ℕ) (l : List α), (mapWithIdx f n l).length = l.length := by
  intro n l
  induction l generalizing n with
  | nil => rfl
  | cons a as ih => simp [mapWithIdx, ih]

/-- Entry i of mapWithIdx is the original entry transformed with index n + i. -/
theorem mapWithIdx_getElem? {α β : Type} (f : ℕ → α → β) :
    ∀ (n : ℕ) (l : List α) (i : ℕ),
      (mapWithIdx f n l)[i]? = (l[i]?).map (f (n + i)) := by
  intro n l
  induction l generalizing n with
  | nil => intro i; simp [mapWithIdx]
  | cons a as ih =>
    intro i
    cases i with
    | zero => simp [mapWithIdx]
    | succ j =>
      simp only [mapWithIdx, List.getElem?_cons_succ, ih (n + 1) j]
      have h : n + 1 + j = n + (j + 1) := by omega
      rw [h]

/-- The squared-magnitude comparison of the executable feasibility check
agrees with the strict magnitude bound of the spec. -/
theorem cabs2_lt_one_iff (z : Cplx) :
    cabs2 z < 1 ↔ Real.sqrt ((z.1 : ℝ) ^ 2 + (z.2 : ℝ) ^ 2) < 1 := by
  have hcast : ((z.1 : ℝ) ^ 2 + (z.2 : ℝ) ^ 2) = ((cabs2 z : ℚ) : ℝ) := by
    push_cast [cabs2]
    ring
  rw [Real.sqrt_lt' one_pos, one_pow, hcast]
  constructor <;> intro h <;> exact_mod_cast h

/-- The squared-magnitude comparison of the executable feasibility check
agrees with the non-strict magnitude bound of the spec. -/
theorem cabs2_le_one_iff (z : Cplx) :
    cabs2 z ≤ 1 ↔ Real.sqrt ((z.1 : ℝ) ^ 2 + (z.2 : ℝ) ^ 2) ≤ 1 := by
  have hcast : ((z.1 : ℝ) ^ 2 + (z.2 : ℝ) ^ 2) = ((cabs2 z : ℚ) : ℝ) := by
    push_cast [cabs2]
    ring
  rw [hcast, Real.sqrt_le_one]
  constructor <;> intro h <;> exact_mod_cast h

/-- A list whose consecutive steps are halved, starting from a nonnegative
step, has non-increasing steps. -/
theorem chain_half_desc :
    ∀ l : List Trial, List.Chain' (fun t1 t2 => t2.step = t1.step * dec) l →
      (∀ t, l.head? = some t → 0 ≤ t.step) →
      List.Chain' (fun t1 t2 => t2.step ≤ t1.step) l := by
  intro l
  induction l with
  | nil => intro _ _; simp
  | cons a l2 ih =>
    intro hch hh
    cases l2 with
    | nil => simp
    | cons b l3 =>
      rw [List.chain'_cons] at hch ⊢
      have ha : 0 ≤ a.step := hh a rfl
      have hb : b.step = a.step * dec := hch.1
      have hb0 : 0 ≤ b.step := by
        rw [hb, dec]
        linarith
      refine ⟨by rw [hb, dec]; linarith, ih hch.2 ?_⟩
      intro t ht
      simp only [List.head?_cons, Option.some.injEq] at ht
      rw [← ht]
      exact hb0

/-- The termination chain accepts in mode ARMIJO only finite energies that
satisfy the sufficient-decrease bound fx ≤ fx_init + step * test_decr. -/
theorem lsTermDecide_accept_armijo (q0 td s : ℚ) (f : Flt)
    (h : lsTermDecide LINE_SEARCH_TERMINATION_ARMIJO (.fin q0) td s f = .accept) :
    ∃ q', f = .fin q' ∧ q' ≤ q0 + s * td := by
  cases f with
  | nan => simp [lsTermDecide, Flt.isFin] at h
  | negInf => simp [lsTermDecide, Flt.isFin] at h
  | posInf => simp [lsTermDecide, Flt.isFin] at h
  | fin q' =>
    refine ⟨q', rfl, ?_⟩
    simp only [lsTermDecide, Flt.isFin, Bool.not_true, Bool.false_eq_true, if_false,
      LINE_SEARCH_TERMINATION_ARMIJO, LINE_SEARCH_TERMINATION_NONE,
      LINE_SEARCH_TERMINATION_DECREASE, fltGt, fltLt, fltAddQ,
      show (2 : ℤ) ≠ 0 by norm_num, show (2 : ℤ) ≠ 1 by norm_num, if_false,
      if_true, decide_eq_true_eq] at h
    split_ifs at h with h1 h2
    exact le_of_not_lt h2

/-- C3 amended: bound checks are applied to rejected trials, not before
building or evaluating: every recorded trial that is followed by another
trial had its step inside [minStep, maxStep] when it was rejected, and a
fatal too-small (resp. too-large) error reports a final step strictly below
minStep (resp. strictly above maxStep).  A trial itself — in particular the
first one, built with the caller-supplied step — may be built and evaluated
with a step outside the bounds (see the counterexample theorem). -/
theorem step_bounds_checked_on_rejection (E : MINGROCExt) (F : List (ℕ × ℕ × ℕ))
    (bdyIDx fixIDx : List ℕ) (P : MINGROCParam) (drt : List ℚ) (dw : List Cplx)
    (grad : List ℚ) (fx : Flt) (x : List ℚ) (w : List Cplx) (step : ℚ) :
    List.Chain' (fun t1 _t2 => P.minStep ≤ t1.step ∧ t1.step ≤ P.maxStep)
      (trialsOf (LineSearch E F bdyIDx fixIDx P drt dw grad fx x w step)) ∧
    (∀ f' x' w' s' ts,
      LineSearch E F bdyIDx fixIDx P drt dw grad fx x w step =
        .err .tooSmall f' x' w' s' ts → s' < P.minStep) ∧
    (∀ f' x' w' s' ts,
      LineSearch E F bdyIDx fixIDx P drt dw grad fx x w step =
        .err .tooLarge f' x' w' s' ts → P.maxStep < s') := by
  by_cases hpos : 0 < dot grad drt
  · refine ⟨by simp [LineSearch, hpos, trialsOf], ?_, ?_⟩
    · intro f' x' w' s' ts h
      simp only [LineSearch, if_pos hpos] at h
      injection h with hk
      cases hk
    · intro f' x' w' s' ts h
      simp only [LineSearch, if_pos hpos] at h
      injection h with hk
      cases hk
  · refine ⟨?_, ?_, ?_⟩
    · simp only [LineSearch, if_neg hpos]
      have hch := lsLoop_chain (mkCtx E F bdyIDx fixIDx P drt dw grad fx x w)
        (P.maxLineSearch + 1) 0 fx x w step [] (by simp) (by simp)
      exact List.Chain'.imp (fun t1 t2 h => ⟨h.2.1, h.2.2⟩) hch
    · intro f' x' w' s' ts h
      simp only [LineSearch, if_neg hpos] at h
      have h2 := (lsLoop_last_state (mkCtx E F bdyIDx fixIDx P drt dw grad fx x w)
        (P.maxLineSearch + 1) 0 fx x w step [] (by simp [mkCtx]) (Nat.zero_le _)
        rfl).2 .tooSmall f' x' w' s' ts h
      exact h2.2.1 rfl
    · intro f' x' w' s' ts h
      simp only [LineSearch, if_neg hpos] at h
      have h2 := (lsLoop_last_state (mkCtx E F bdyIDx fixIDx P drt dw grad fx x w)
        (P.maxLineSearch + 1) 0 fx x w step [] (by simp [mkCtx]) (Nat.zero_le _)
        rfl).2 .tooLarge f' x' w' s' ts h
      exact h2.2.2.1 rfl

/-- Closed instance of the amended C3 theorem: with minStep = 2, an
infeasible first trial at step 1 is rejected and the bound check then fails
fatally, reporting a final step strictly below minStep. -/
theorem step_bounds_checked_on_rejection_witness : (1 : ℚ) < pMin.minStep :=
  (step_bounds_checked_on_rejection extA [] [] [] pMin [0] [((0:ℚ), (0:ℚ))] [0]
    (.fin 5) [2] [((0:ℚ), (0:ℚ))] 1).2.1 (.fin 5) [2] [((0:ℚ), (0:ℚ))] 1
    [⟨1, [2], [((0:ℚ), (0:ℚ))], [((2:ℚ), (0:ℚ))], false, none⟩]
    (by norm_num [LineSearch, lsLoop, dot, mkCtx, buildX, buildW, buildWraw, pinFixed,
      clipToUnitCircle, mapWithIdx, validStepCheck, cabs2, lift3D, extA, pMin,
      lsTermDecide, trialsOf, LINE_SEARCH_TERMINATION_NONE, dec, Flt.isFin,
      fltGt, fltLt, fltAddQ])

/-- C5: in mode ARMIJO, a successful call returns an energy fx and step s
with fx ≤ fx_init + s * ftol * dg_init; the returned step is the very step
the accepting Armijo test used (the accept branch returns before the shrink
update). -/
theorem armijo_bound_on_success (E : MINGROCExt) (F : List (ℕ × ℕ × ℕ))
    (bdyIDx fixIDx : List ℕ) (P : MINGROCParam) (drt : List ℚ) (dw : List Cplx)
    (grad : List ℚ) (q0 : ℚ) (x : List ℚ) (w : List Cplx) (step : ℚ)
    (f' : Flt) (x' : List ℚ) (w' : List Cplx) (s' : ℚ) (ts : List Trial) :
    P.lineSearchTermination = LINE_SEARCH_TERMINATION_ARMIJO →
    LineSearch E F bdyIDx fixIDx P drt dw grad (.fin q0) x w step =
      .ok f' x' w' s' ts →
    ∃ q', f' = .fin q' ∧ q' ≤ q0 + s' * (P.ftol * dot grad drt) := by
  intro hmode h
  by_cases hpos : 0 < dot grad drt
  · simp only [LineSearch, if_pos hpos] at h
    cases h
  · simp only [LineSearch, if_neg hpos] at h
    obtain ⟨t, _hlast, _hstep, _hx, _hw, _hvalid, _hfx, hacc⟩ :=
      (lsLoop_last_state (mkCtx E F bdyIDx fixIDx P drt dw grad (.fin q0) x w)
        (P.maxLineSearch + 1) 0 (.fin q0) x w step [] (by simp [mkCtx])
        (Nat.zero_le _) rfl).1 f' x' w' s' ts h
    dsimp only [mkCtx] at hacc
    rw [hmode] at hacc
    exact lsTermDecide_accept_armijo q0 (P.ftol * dot grad drt) s' f' hacc

/-- Closed instance of the C5 theorem: a concrete ARMIJO run accepting the
first trial, whose returned energy satisfies the sufficient-decrease bound. -/
theorem armijo_bound_on_success_witness :
    ∃ q', Flt.fin (-1/2) = .fin q' ∧ q' ≤ 1 + 1 * (pArm.ftol * dot [1] [-1/2]) :=
  armijo_bound_on_success extA [] [] [] pArm [-1/2] [((0:ℚ), (0:ℚ))] [1] 1 [0]
    [((0:ℚ), (0:ℚ))] 1 (.fin (-1/2)) [-1/2] [((0:ℚ), (0:ℚ))] 1
    [⟨1, [-1/2], [((0:ℚ), (0:ℚ))], [((-1/2 : ℚ), (0:ℚ))], true, some (.fin (-1/2))⟩]
    rfl
    (by norm_num [LineSearch, lsLoop, dot, mkCtx, buildX, buildW, buildWraw, pinFixed,
      clipToUnitCircle, mapWithIdx, validStepCheck, cabs2, lift3D, extA, pArm,
      lsTermDecide, trialsOf, LINE_SEARCH_TERMINATION_NONE,
      LINE_SEARCH_TERMINATION_DECREASE, LINE_SEARCH_TERMINATION_ARMIJO, dec,
      Flt.isFin, fltGt, fltLt, fltAddQ])

/-- C7: the step sequence of one call shrinks by exactly dec = 0.5 at every
rejection (consecutive recorded trials have steps in ratio dec), hence is
monotonically non-increasing when the initial step is nonnegative, and a
successful call returns the accepted trial's step unchanged.  The declared
increasing factor inc is never applied: every consecutive ratio is dec. -/
theorem step_shrinks_by_half (E : MINGROCExt) (F : List (ℕ × ℕ × ℕ))
    (bdyIDx fixIDx : List ℕ) (P : MINGROCParam) (drt : List ℚ) (dw : List Cplx)
    (grad : List ℚ) (fx : Flt) (x : List ℚ) (w : List Cplx) (step : ℚ) :
    List.Chain' (fun t1 t2 => t2.step = t1.step * dec)
      (trialsOf (LineSearch E F bdyIDx fixIDx P drt dw grad fx x w step)) ∧
    (0 ≤ step →
      List.Chain' (fun t1 t2 => t2.step ≤ t1.step)
        (trialsOf (LineSearch E F bdyIDx fixIDx P drt dw grad fx x w step))) ∧
    (∀ f' x' w' s' ts,
      LineSearch E F bdyIDx fixIDx P drt dw grad fx x w step = .ok f' x' w' s' ts →
      ts.getLast?.map Trial.step = some s') ∧
    dec = 1 / 2 := by
  have hchain : List.Chain' (fun t1 t2 => t2.step = t1.step * dec)
      (trialsOf (LineSearch E F bdyIDx fixIDx P drt dw grad fx x w step)) := by
    by_cases hpos : 0 < dot grad drt
    · simp [LineSearch, hpos, trialsOf]
    · simp only [LineSearch, if_neg hpos]
      have hch := lsLoop_chain (mkCtx E F bdyIDx fixIDx P drt dw grad fx x w)
        (P.maxLineSearch + 1) 0 fx x w step [] (by simp) (by simp)
      exact List.Chain'.imp (fun t1 t2 h => h.1) hch
  have hhead : ∀ t, (trialsOf (LineSearch E F bdyIDx fixIDx P drt dw grad
      fx x w step)).head? = some t → t.step = step := by
    by_cases hpos : 0 < dot grad drt
    · simp [LineSearch, hpos, trialsOf]
    · simp only [LineSearch, if_neg hpos]
      obtain ⟨ts0, heq, _hgood, hh⟩ :=
        lsLoop_trials_shape (mkCtx E F bdyIDx fixIDx P drt dw grad fx x w)
          (P.maxLineSearch + 1) 0 fx x w step []
      rw [heq, List.nil_append]
      exact hh
  refine ⟨hchain, ?_, ?_, rfl⟩
  · intro h0
    refine chain_half_desc _ hchain ?_
    intro t ht
    rw [hhead t ht]
    exact h0
  · intro f' x' w' s' ts h
    by_cases hpos : 0 < dot grad drt
    · simp only [LineSearch, if_pos hpos] at h
      cases h
    · simp only [LineSearch, if_neg hpos] at h
      obtain ⟨t, hlast, hstep, _⟩ :=
        (lsLoop_last_state (mkCtx E F bdyIDx fixIDx P drt dw grad fx x w)
          (P.maxLineSearch + 1) 0 fx x w step [] (by simp [mkCtx])
          (Nat.zero_le _) rfl).1 f' x' w' s' ts h
      rw [hlast]
      simp [hstep]

/-- Closed instance of the C7 theorem: the three-trial run with initial step
1 (steps 1, 1/2, 1/4) has a non-increasing step sequence. -/
theorem step_shrinks_by_half_witness :
    List.Chain' (fun t1 t2 => t2.step ≤ t1.step)
      (trialsOf (LineSearch extA [] [] [] pA [1] [((0:ℚ), (0:ℚ))] [-1] (.fin 0)
        [1/2] [((0:ℚ), (0:ℚ))] 1)) :=
  (step_shrinks_by_half extA [] [] [] pA [1] [((0:ℚ), (0:ℚ))] [-1] (.fin 0)
    [1/2] [((0:ℚ), (0:ℚ))] 1).2.1 (by norm_num)

/-- C6: a candidate is feasible iff every distortion-field magnitude is
strictly below 1, every embedding magnitude is at most 1 and, when
self-intersection checking is enabled, the 3-D lift does not self-intersect;
and in every call an infeasible recorded trial is never passed to the energy
evaluator (its recorded energy is none), while a feasible one is evaluated.
The feasibility check itself raises nothing: no error kind of the model
corresponds to infeasibility, an infeasible candidate only drives the
shrink-and-retry path. -/
theorem feasibility_characterization :
    (∀ (P : MINGROCParam) (E : MINGROCExt) (F : List (ℕ × ℕ × ℕ)) (mu w : List Cplx),
      validStepCheck P E F mu w = true ↔
        ((∀ z ∈ mu, Real.sqrt ((z.1 : ℝ) ^ 2 + (z.2 : ℝ) ^ 2) < 1) ∧
         (∀ z ∈ w, Real.sqrt ((z.1 : ℝ) ^ 2 + (z.2 : ℝ) ^ 2) ≤ 1) ∧
         (P.checkSelfIntersections = true →
           E.selfIntersections (lift3D w) F = false))) ∧
    (∀ (E : MINGROCExt) (F : List (ℕ × ℕ × ℕ)) (bdyIDx fixIDx : List ℕ)
       (P : MINGROCParam) (drt : List ℚ) (dw : List Cplx) (grad : List ℚ)
       (fx : Flt) (x : List ℚ) (w : List Cplx) (step : ℚ),
      ∀ t ∈ trialsOf (LineSearch E F bdyIDx fixIDx P drt dw grad fx x w step),
        t.valid = validStepCheck P E F t.mu t.w ∧
        (t.valid = false → t.fx = none) ∧
        (t.valid = true → t.fx = some (E.calculateEnergy t.mu t.w))) := by
  constructor
  · intro P E F mu w
    cases hsi : P.checkSelfIntersections with
    | false =>
      simp only [validStepCheck, hsi, if_false, Bool.and_true, Bool.and_eq_true,
        List.all_eq_true, decide_eq_true_eq, Bool.false_eq_true, false_implies,
        and_true]
      simp_rw [cabs2_lt_one_iff, cabs2_le_one_iff]
    | true =>
      simp only [validStepCheck, hsi, if_true, Bool.and_eq_true, List.all_eq_true,
        decide_eq_true_eq, Bool.not_eq_true', true_implies, and_assoc]
      simp_rw [cabs2_lt_one_iff, cabs2_le_one_iff]
  · intro E F bdyIDx fixIDx P drt dw grad fx x w step t ht
    by_cases hpos : 0 < dot grad drt
    · simp [LineSearch, hpos, trialsOf] at ht
    · simp only [LineSearch, if_neg hpos] at ht
      obtain ⟨ts0, heq, hgood, _⟩ :=
        lsLoop_trials_shape (mkCtx E F bdyIDx fixIDx P drt dw grad fx x w)
          (P.maxLineSearch + 1) 0 fx x w step []
      rw [heq, List.nil_append] at ht
      obtain ⟨_hx, _hmu, _hw, hvalid, hnone, hsome⟩ := hgood t ht
      exact ⟨hvalid, hnone, hsome⟩

/-- Closed instance of the C6 theorem: the infeasible first trial of the
three-trial run (distortion entry 3/2, magnitude above 1) is recorded as
invalid and its energy was never evaluated. -/
theorem feasibility_characterization_witness :
    (⟨1, [3/2], [((0:ℚ), (0:ℚ))], [((3/2 : ℚ), (0:ℚ))], false, none⟩ : Trial).valid =
      validStepCheck pA extA [] [((3/2 : ℚ), (0:ℚ))] [((0:ℚ), (0:ℚ))] ∧
    ((⟨1, [3/2], [((0:ℚ), (0:ℚ))], [((3/2 : ℚ), (0:ℚ))], false, none⟩ : Trial).valid =
        false →
      (⟨1, [3/2], [((0:ℚ), (0:ℚ))], [((3/2 : ℚ), (0:ℚ))], false, none⟩ : Trial).fx =
        none) ∧
    ((⟨1, [3/2], [((0:ℚ), (0:ℚ))], [((3/2 : ℚ), (0:ℚ))], false, none⟩ : Trial).valid =
        true →
      (⟨1, [3/2], [((0:ℚ), (0:ℚ))], [((3/2 : ℚ), (0:ℚ))], false, none⟩ : Trial).fx =
        some (extA.calculateEnergy [((3/2 : ℚ), (0:ℚ))] [((0:ℚ), (0:ℚ))])) :=
  feasibility_characterization.2 extA [] [] [] pA [1] [((0:ℚ), (0:ℚ))] [-1]
    (.fin 0) [1/2] [((0:ℚ), (0:ℚ))] 1 _
    (by norm_num [LineSearch, lsLoop, dot, mkCtx, buildX, buildW, buildWraw, pinFixed,
      clipToUnitCircle, mapWithIdx, validStepCheck, cabs2, lift3D, extA, pA,
      lsTermDecide, trialsOf, LINE_SEARCH_TERMINATION_NONE, dec, Flt.isFin,
      fltGt, fltLt, fltAddQ, List.mem_cons])

/-- C8: in every recorded trial of a call, the embedding value at each
fixed index equals the pre-search base value: the pinning is applied after
the step update and the boundary projection and overrides both. -/
theorem pinned_vertices_unchanged (E : MINGROCExt) (F : List (ℕ × ℕ × ℕ))
    (bdyIDx fixIDx : List ℕ) (P : MINGROCParam) (drt : List ℚ) (dw : List Cplx)
    (grad : List ℚ) (fx : Flt) (x : List ℚ) (w : List Cplx) (step : ℚ) :
    ∀ t ∈ trialsOf (LineSearch E F bdyIDx fixIDx P drt dw grad fx x w step),
      ∀ i ∈ fixIDx, i < w.length → i < dw.length → t.w[i]? = w[i]? := by
  intro t ht i hifix hiw hidw
  by_cases hpos : 0 < dot grad drt
  · simp [LineSearch, hpos, trialsOf] at ht
  · simp only [LineSearch, if_neg hpos] at ht
    obtain ⟨ts0, heq, hgood, _⟩ :=
      lsLoop_trials_shape (mkCtx E F bdyIDx fixIDx P drt dw grad fx x w)
        (P.maxLineSearch + 1) 0 fx x w step []
    rw [heq, List.nil_append] at ht
    obtain ⟨_hx, _hmu, hw, _⟩ := hgood t ht
    rw [hw]
    have hlenraw : (buildWraw (mkCtx E F bdyIDx fixIDx P drt dw grad fx x w)
        t.step).length = min w.length dw.length := by
      simp [buildWraw, mkCtx, List.length_zipWith]
    have hlenclip : (clipToUnitCircle E bdyIDx
        (buildWraw (mkCtx E F bdyIDx fixIDx P drt dw grad fx x w) t.step)).length =
        min w.length dw.length := by
      rw [clipToUnitCircle, mapWithIdx_length]
      exact hlenraw
    have hiclip : i < (clipToUnitCircle E bdyIDx
        (buildWraw (mkCtx E F bdyIDx fixIDx P drt dw grad fx x w) t.step)).length := by
      rw [hlenclip]
      omega
    dsimp only [mkCtx, buildW, pinFixed]
    dsimp only [mkCtx] at hiclip
    rw [mapWithIdx_getElem?, Nat.zero_add, List.getElem?_eq_getElem hiclip]
    simp [if_pos hifix, List.getD_eq_getElem?_getD, List.getElem?_eq_getElem hiw]

/-- Closed instance of the C8 theorem: with vertex 0 pinned, the accepted
trial of a run whose raw update would move the vertex to 3/2 keeps the base
value 1/2 at index 0. -/
theorem pinned_vertices_unchanged_witness :
    (⟨1, [0], [((1/2 : ℚ), (0:ℚ))], [((0:ℚ), (0:ℚ))], true, some (.fin 0)⟩ :
        Trial).w[0]? = [((1/2 : ℚ), (0:ℚ))][0]? :=
  pinned_vertices_unchanged extA [] [] [0] pA [0] [((1:ℚ), (0:ℚ))] [-1] (.fin 0)
    [0] [((1/2 : ℚ), (0:ℚ))] 1 _
    (by norm_num [LineSearch, lsLoop, dot, mkCtx, buildX, buildW, buildWraw, pinFixed,
      clipToUnitCircle, mapWithIdx, validStepCheck, cabs2, lift3D, extA, pA,
      lsTermDecide, trialsOf, LINE_SEARCH_TERMINATION_NONE, dec, Flt.isFin,
      fltGt, fltLt, fltAddQ, List.mem_cons, List.getD])
    0 (by norm_num) (by norm_num) (by norm_num)

/-- C9: one call records at most maxLineSearch + 1 trials; when the budget
is exhausted (iter at or past maxLineSearch) a rejection — infeasible
candidate or termination-policy rejection — yields the fatal
iteration-budget error immediately, with no shrink and no further trial
(the budget check precedes the bound checks, so it wins even when the step
is also out of bounds); in particular with maxLineSearch = 0 an infeasible
first candidate fails with the resource-exhaustion error after exactly one
trial, whose energy was never evaluated. -/
theorem iteration_budget :
    (∀ (E : MINGROCExt) (F : List (ℕ × ℕ × ℕ)) (bdyIDx fixIDx : List ℕ)
       (P : MINGROCParam) (drt : List ℚ) (dw : List Cplx) (grad : List ℚ)
       (fx : Flt) (x : List ℚ) (w : List Cplx) (step : ℚ),
      (trialsOf (LineSearch E F bdyIDx fixIDx P drt dw grad fx x w step)).length ≤
        P.maxLineSearch + 1) ∧
    (∀ (c : LSCtx) (iter fuel : ℕ) (fx : Flt) (x : List ℚ) (w : List Cplx)
       (step : ℚ) (trials : List Trial),
      c.P.maxLineSearch ≤ iter →
      validStepCheck c.P c.E c.F (c.E.convertRealToComplex (buildX c step))
        (buildW c step) = false →
      lsLoop c iter (fuel + 1) fx x w step trials =
        .err .budget fx (buildX c step) (buildW c step) step
          (trials ++ [⟨step, buildX c step, buildW c step,
            c.E.convertRealToComplex (buildX c step), false, none⟩])) ∧
    (∀ (c : LSCtx) (iter fuel : ℕ) (fx : Flt) (x : List ℚ) (w : List Cplx)
       (step : ℚ) (trials : List Trial),
      c.P.maxLineSearch ≤ iter →
      validStepCheck c.P c.E c.F (c.E.convertRealToComplex (buildX c step))
        (buildW c step) = true →
      lsTermDecide c.P.lineSearchTermination c.fx_init c.test_decr step
        (c.E.calculateEnergy (c.E.convertRealToComplex (buildX c step))
          (buildW c step)) = .shrink →
      lsLoop c iter (fuel + 1) fx x w step trials =
        .err .budget
          (c.E.calculateEnergy (c.E.convertRealToComplex (buildX c step))
            (buildW c step))
          (buildX c step) (buildW c step) step
          (trials ++ [⟨step, buildX c step, buildW c step,
            c.E.convertRealToComplex (buildX c step), true,
            some (c.E.calculateEnergy (c.E.convertRealToComplex (buildX c step))
              (buildW c step))⟩])) ∧
    (∀ (E : MINGROCExt) (F : List (ℕ × ℕ × ℕ)) (bdyIDx fixIDx : List ℕ)
       (P : MINGROCParam) (drt : List ℚ) (dw : List Cplx) (grad : List ℚ)
       (fx : Flt) (x : List ℚ) (w : List Cplx) (step : ℚ),
      P.maxLineSearch = 0 →
      ¬ 0 < dot grad drt →
      validStepCheck P E F
        (E.convertRealToComplex
          (buildX (mkCtx E F bdyIDx fixIDx P drt dw grad fx x w) step))
        (buildW (mkCtx E F bdyIDx fixIDx P drt dw grad fx x w) step) = false →
      LineSearch E F bdyIDx fixIDx P drt dw grad fx x w step =
        .err .budget fx (buildX (mkCtx E F bdyIDx fixIDx P drt dw grad fx x w) step)
          (buildW (mkCtx E F bdyIDx fixIDx P drt dw grad fx x w) step) step
          [⟨step, buildX (mkCtx E F bdyIDx fixIDx P drt dw grad fx x w) step,
            buildW (mkCtx E F bdyIDx fixIDx P drt dw grad fx x w) step,
            E.convertRealToComplex
              (buildX (mkCtx E F bdyIDx fixIDx P drt dw grad fx x w) step),
            false, none⟩]) := by
  have key2 : ∀ (c : LSCtx) (iter fuel : ℕ) (fx : Flt) (x : List ℚ) (w : List Cplx)
      (step : ℚ) (trials : List Trial),
      c.P.maxLineSearch ≤ iter →
      validStepCheck c.P c.E c.F (c.E.convertRealToComplex (buildX c step))
        (buildW c step) = false →
      lsLoop c iter (fuel + 1) fx x w step trials =
        .err .budget fx (buildX c step) (buildW c step) step
          (trials ++ [⟨step, buildX c step, buildW c step,
            c.E.convertRealToComplex (buildX c step), false, none⟩]) := by
    intro c iter fuel fx x w step trials hb hval
    simp [lsLoop, hval, hb]
  refine ⟨?_, key2, ?_, ?_⟩
  · intro E F bdyIDx fixIDx P drt dw grad fx x w step
    by_cases hpos : 0 < dot grad drt
    · simp [LineSearch, hpos, trialsOf]
    · simp only [LineSearch, if_neg hpos]
      have := lsLoop_length (mkCtx E F bdyIDx fixIDx P drt dw grad fx x w)
        (P.maxLineSearch + 1) 0 fx x w step []
      simpa using this
  · intro c iter fuel fx x w step trials hb hval hdec
    simp [lsLoop, hval, hdec, hb]
  · intro E F bdyIDx fixIDx P drt dw grad fx x w step hmax0 hneg hval
    have h := key2 (mkCtx E F bdyIDx fixIDx P drt dw grad fx x w) 0 0 fx x w step []
      (by simp [mkCtx, hmax0]) hval
    simp only [LineSearch, if_neg hneg, hmax0]
    simpa using h

/-- Closed instance of the C9 theorem: with maxLineSearch = 0 and an
infeasible first candidate, the call fails with the resource-exhaustion
error after exactly one recorded trial, within the budget bound. -/
theorem iteration_budget_witness :
    (trialsOf (LineSearch extA [] [] [] pZero [0] [((0:ℚ), (0:ℚ))] [0] (.fin 5)
      [2] [((0:ℚ), (0:ℚ))] 1)).length ≤ pZero.maxLineSearch + 1 ∧
    LineSearch extA [] [] [] pZero [0] [((0:ℚ), (0:ℚ))] [0] (.fin 5) [2]
        [((0:ℚ), (0:ℚ))] 1 =
      .err .budget (.fin 5)
        (buildX (mkCtx extA [] [] [] pZero [0] [((0:ℚ), (0:ℚ))] [0] (.fin 5) [2]
          [((0:ℚ), (0:ℚ))]) 1)
        (buildW (mkCtx extA [] [] [] pZero [0] [((0:ℚ), (0:ℚ))] [0] (.fin 5) [2]
          [((0:ℚ), (0:ℚ))]) 1) 1
        [⟨1, buildX (mkCtx extA [] [] [] pZero [0] [((0:ℚ), (0:ℚ))] [0] (.fin 5)
            [2] [((0:ℚ), (0:ℚ))]) 1,
          buildW (mkCtx extA [] [] [] pZero [0] [((0:ℚ), (0:ℚ))] [0] (.fin 5) [2]
            [((0:ℚ), (0:ℚ))]) 1,
          extA.convertRealToComplex
            (buildX (mkCtx extA [] [] [] pZero [0] [((0:ℚ), (0:ℚ))] [0] (.fin 5)
              [2] [((0:ℚ), (0:ℚ))]) 1),
          false, none⟩] :=
  ⟨iteration_budget.1 extA [] [] [] pZero [0] [((0:ℚ), (0:ℚ))] [0] (.fin 5) [2]
      [((0:ℚ), (0:ℚ))] 1,
   iteration_budget.2.2.2 extA [] [] [] pZero [0] [((0:ℚ), (0:ℚ))] [0] (.fin 5)
     [2] [((0:ℚ), (0:ℚ))] 1 rfl (by norm_num [dot])
     (by norm_num [dot, mkCtx, buildX, buildW, buildWraw, pinFixed,
       clipToUnitCircle, mapWithIdx, validStepCheck, cabs2, lift3D, extA, pZero])⟩

/-- C10: a fatal error raised after the loop has started (budget, step
bound, or unrecognized termination mode — anything but the pre-loop descent
error) leaves the caller-visible in/out references holding the last rejected
trial's values: x and w are exactly the candidate built with the returned
step (base plus returned step times direction, clipped and pinned), and when
the last trial's energy was evaluated, fx holds that rejected energy.  The
call is not atomic on failure. -/
theorem failure_not_atomic (E : MINGROCExt) (F : List (ℕ × ℕ × ℕ))
    (bdyIDx fixIDx : List ℕ) (P : MINGROCParam) (drt : List ℚ) (dw : List Cplx)
    (grad : List ℚ) (fx : Flt) (x : List ℚ) (w : List Cplx) (step : ℚ)
    (k : ErrKind) (f' : Flt) (x' : List ℚ) (w' : List Cplx) (s' : ℚ)
    (ts : List Trial) :
    LineSearch E F bdyIDx fixIDx P drt dw grad fx x w step =
      .err k f' x' w' s' ts →
    k ≠ .notDescent →
    ∃ t, ts.getLast? = some t ∧ s' = t.step ∧ x' = t.x ∧ w' = t.w ∧
      t.x = buildX (mkCtx E F bdyIDx fixIDx P drt dw grad fx x w) t.step ∧
      t.w = buildW (mkCtx E F bdyIDx fixIDx P drt dw grad fx x w) t.step ∧
      (∀ e, t.fx = some e → f' = e) := by
  intro h hk
  by_cases hpos : 0 < dot grad drt
  · simp only [LineSearch, if_pos hpos] at h
    injection h with hk2
    exact absurd hk2.symm hk
  · simp only [LineSearch, if_neg hpos] at h
    obtain ⟨t, hlast, hstep, hx, hw, hfx⟩ :=
      ((lsLoop_last_state (mkCtx E F bdyIDx fixIDx P drt dw grad fx x w)
        (P.maxLineSearch + 1) 0 fx x w step [] (by simp [mkCtx]) (Nat.zero_le _)
        rfl).2 k f' x' w' s' ts h).2.2.2.2
    obtain ⟨ts0, heq, hgood, _⟩ :=
      lsLoop_trials_shape (mkCtx E F bdyIDx fixIDx P drt dw grad fx x w)
        (P.maxLineSearch + 1) 0 fx x w step []
    rw [h] at heq
    simp only [trialsOf, List.nil_append] at heq
    have hmem : t ∈ ts0 := heq ▸ mem_of_getLast?_eq hlast
    obtain ⟨hbx, _hmu, hbw, _⟩ := hgood t hmem
    exact ⟨t, hlast, hstep.symm, hx.symm, hw.symm, hbx, hbw, hfx⟩

/-- Closed instance of the C10 theorem: a budget failure whose err state is
exactly the rejected trial built from the base state, which differs from the
caller's pre-search field, so the failed call visibly mutated its in/out
arguments. -/
theorem failure_not_atomic_witness :
    (∃ t, ([⟨1, [9/2], [((0:ℚ), (0:ℚ))], [((9/2 : ℚ), (0:ℚ))], false, none⟩] :
        List Trial).getLast? = some t ∧ (1 : ℚ) = t.step ∧ [9/2] = t.x ∧
      [((0:ℚ), (0:ℚ))] = t.w ∧
      t.x = buildX (mkCtx extA [] [] [] pZero [4] [((0:ℚ), (0:ℚ))] [0] (.fin 7)
        [1/2] [((0:ℚ), (0:ℚ))]) t.step ∧
      t.w = buildW (mkCtx extA [] [] [] pZero [4] [((0:ℚ), (0:ℚ))] [0] (.fin 7)
        [1/2] [((0:ℚ), (0:ℚ))]) t.step ∧
      (∀ e, t.fx = some e → Flt.fin 7 = e)) ∧
    ([(9/2 : ℚ)] ≠ [1/2]) :=
  ⟨failure_not_atomic extA [] [] [] pZero [4] [((0:ℚ), (0:ℚ))] [0] (.fin 7)
      [1/2] [((0:ℚ), (0:ℚ))] 1 .budget (.fin 7) [9/2] [((0:ℚ), (0:ℚ))] 1
      [⟨1, [9/2], [((0:ℚ), (0:ℚ))], [((9/2 : ℚ), (0:ℚ))], false, none⟩]
      (by norm_num [LineSearch, lsLoop, dot, mkCtx, buildX, buildW, buildWraw,
        pinFixed, clipToUnitCircle, mapWithIdx, validStepCheck, cabs2, lift3D,
        extA, pZero, lsTermDecide, trialsOf, LINE_SEARCH_TERMINATION_NONE, dec,
        Flt.isFin, fltGt, fltLt, fltAddQ])
      (by decide),
   by norm_num⟩

end MINGROCpp
